import Mathlib

/-!
Verification of `src/update_genesis.py` (near-sandbox/cross-chain-simulator).

The script patches NEAR genesis JSON files: for each configured path it loads a
JSON document, appends an `Account` record and a paired `AccessKey` record for
every configured new account whose `account_id` is not already present, deducts
the total added balance from the first `Account` record with `account_id`
`"near"`, and writes the document back.

The embedding below mirrors the Python source:
- JSON values are the inductive `Json` (objects keep field order, as Python
  dicts loaded by `json.load` do; numeric JSON values are modelled as integers,
  the only kind the script's fields use).
- Python exceptions (`KeyError`, `TypeError`, `ValueError`, a JSON parse
  failure) become an `Except Err` result; an `Except.error` models an unhandled
  exception propagating out of `update_genesis`, which aborts the run before
  the file is written.
- `int(s)` on a decimal string is `strToInt`, `str(n)` is `intToStr`.
- Non-list values under the `records` key (over which Python's `for` loop and
  `.append` would raise before any write) are modelled by the error
  `Err.notAList`; no claim touches that case.
- The filesystem is a map from path to `Option FileContent`; `none` is a
  missing file and `FileContent.malformed` an existing file that is not valid
  JSON (`json.load` raises there).
-/

/-- A JSON value as produced by Python's `json.load`: objects are ordered
association lists (Python dicts preserve insertion order). The script's
documents only contain integral numbers, so `num` carries an `Int`. -/
inductive Json where
  | null : Json
  | bool (b : Bool) : Json
  | num (n : Int) : Json
  | str (s : String) : Json
  | arr (elems : List Json) : Json
  | obj (fields : List (String × Json)) : Json

/-- First value bound to key `k` in an ordered field list (Python dict lookup;
`json.load` never produces duplicate keys, so first-match is exact). -/
def lookupField (k : String) : List (String × Json) → Option Json
  | [] => none
  | (k', v) :: rest => if k' = k then some v else lookupField k rest

/-- Dictionary lookup `j[k]` as an optional result: `none` when the key is
absent or `j` is not an object. -/
def Json.lookup : Json → String → Option Json
  | .obj fields, k => lookupField k fields
  | _, _ => none

/-- Python's `k in j` membership test for the dict case; `false` on
non-objects (the script only applies it to record objects). -/
def Json.hasKey (j : Json) (k : String) : Bool :=
  (j.lookup k).isSome

/-- Python dict assignment `d[k] = v` on the field list: an existing key keeps
its position, a new key is appended at the end. -/
def setField : List (String × Json) → String → Json → List (String × Json)
  | [], k, v => [(k, v)]
  | (k', v') :: rest, k, v =>
    if k' = k then (k, v) :: rest else (k', v') :: setField rest k v

/-- Dict assignment `j[k] = v`; identity on non-objects (the script only
assigns into objects previously read successfully). -/
def Json.setKey : Json → String → Json → Json
  | .obj fields, k, v => .obj (setField fields k v)
  | j, _, _ => j

/-- Exceptions the script can raise, plus the JSON parse failure of
`json.load`. An `Except.error` of the pure transform models an unhandled
Python exception. -/
inductive Err where
  | keyError (k : String) : Err
  | typeError : Err
  | valueError (s : String) : Err
  | malformedJson : Err
  | notAList : Err

/-- Dictionary indexing `j[k]` with Python's exception behaviour: `KeyError`
when the key is missing from an object, `TypeError` when `j` is not an
object. -/
def getKey (j : Json) (k : String) : Except Err Json :=
  match j with
  | .obj fields =>
    match lookupField k fields with
    | some v => Except.ok v
    | none => Except.error (Err.keyError k)
  | _ => Except.error Err.typeError

/-- Value of a decimal digit character, `none` for non-digits. -/
def digitVal (c : Char) : Option Nat :=
  if 48 ≤ c.toNat ∧ c.toNat ≤ 57 then some (c.toNat - 48) else none

/-- Accumulating decimal read: consumes the whole character list or fails on
the first non-digit. -/
def readDigits : List Char → Nat → Option Nat
  | [], acc => some acc
  | c :: cs, acc =>
    match digitVal c with
    | some d => readDigits cs (acc * 10 + d)
    | none => none

/-- Read a nonempty all-digit character list as a natural number. -/
def readNat (cs : List Char) : Option Nat :=
  match cs with
  | [] => none
  | _ => readDigits cs 0

/-- Python `int(s)` on the strings the script meets: an optional sign followed
by at least one decimal digit; `none` models `ValueError`. -/
def strToInt (s : String) : Option Int :=
  match s.data with
  | [] => none
  | c :: cs =>
    if c = '-' then Option.map (fun n : Nat => -(n : Int)) (readNat cs)
    else if c = '+' then Option.map (fun n : Nat => (n : Int)) (readNat cs)
    else Option.map (fun n : Nat => (n : Int)) (readNat (c :: cs))

/-- Big-endian decimal digit characters of `n` (Python `str` of a
nonnegative int). -/
def natChars (n : Nat) : List Char :=
  if n = 0 then ['0']
  else ((Nat.digits 10 n).map (fun d => Char.ofNat (d + 48))).reverse

/-- Python `str(i)` for an int: decimal digits with a leading `-` for
negative values. -/
def intToStr (i : Int) : String :=
  if i < 0 then ⟨'-' :: natChars i.natAbs⟩ else ⟨natChars i.natAbs⟩

/-- Python `int()` applied to a JSON value: parses decimal strings, passes
integers through, and raises (`TypeError`) on other shapes. -/
def jsonToInt : Json → Except Err Int
  | .str s =>
    match strToInt s with
    | some n => Except.ok n
    | none => Except.error (Err.valueError s)
  | .num n => Except.ok n
  | _ => Except.error Err.typeError

/-- One entry of the script's hardcoded `NEW_ACCOUNTS` list. -/
structure AccountSpec where
  id : String
  pk : String

/-- The hardcoded `NEW_ACCOUNTS` configuration of the script. -/
def NEW_ACCOUNTS : List AccountSpec :=
  [ { id := "mpc-node-0.node0",
      pk := "ed25519:69CETJnEyCTaQ7B3PxEWrsMWpoufayKFhHWN15HQ8smR" },
    { id := "mpc-node-1.node0",
      pk := "ed25519:93pcUSau23m7imF94gny2R9c8UDvGHGmiVFKr7j4pkjP" },
    { id := "mpc-node-2.node0",
      pk := "ed25519:5CJ4d6byRNacX5QNaASHGXmURtWE48xARnNGWAwKRiWg" } ]

/-- The script's `AMOUNT` constant (10 NEAR in yocto units). -/
def AMOUNT : String := "10000000000000000000000000"

/-- The integer value `int(AMOUNT)` the script accumulates per added
account. -/
def AMOUNT_INT : Int := 10000000000000000000000000

/-- The hardcoded `GENESIS_PATHS` list the script iterates over. -/
def GENESIS_PATHS : List String :=
  [ "/home/ubuntu/.near/localnet/node0/genesis.json",
    "/home/ubuntu/.near/localnet/node1/genesis.json",
    "/home/ubuntu/.near/localnet/node2/genesis.json",
    "/home/ubuntu/.near/localnet/node3/genesis.json" ]

/-- Content `data['records']`: `KeyError 'records'` when the key is missing,
`TypeError` when the document is not an object, `notAList` when the value is
not a JSON array (Python would raise while iterating or appending there). -/
def getRecords (data : Json) : Except Err (List Json) :=
  match data with
  | .obj fields =>
    match lookupField "records" fields with
    | some (.arr rs) => Except.ok rs
    | some _ => Except.error Err.notAList
    | none => Except.error (Err.keyError "records")
  | _ => Except.error Err.typeError

/-- Python refuses to place unhashable values (lists, dicts) in a set: the
first scan raises `TypeError` on such an `account_id`. -/
def hashableId : Json → Except Err Json
  | .arr _ => Except.error Err.typeError
  | .obj _ => Except.error Err.typeError
  | j => Except.ok j

/-- The first scan of `records` (source lines 40-43): collect
`r['Account']['account_id']` for every record with an `'Account'` key. The
set of the script is modelled as the list of collected ids (membership agrees
with set membership). -/
def collectExistingIds : List Json → Except Err (List Json)
  | [] => Except.ok []
  | r :: rest =>
    if r.hasKey "Account" then do
      let accv ← getKey r "Account"
      let aid ← getKey accv "account_id"
      let aidh ← hashableId aid
      let ids ← collectExistingIds rest
      Except.ok (aidh :: ids)
    else collectExistingIds rest

/-- Python's `==` between the string `s` and a set member: true exactly for an
equal string. -/
def idMatches (s : String) : Json → Bool
  | .str t => s = t
  | _ => false

/-- Membership test `s in existing_ids`. -/
def idPresent (ids : List Json) (s : String) : Bool :=
  ids.any (idMatches s)

/-- The nested `account` object of every appended `Account` record (source
lines 58-64): fixed initial balance, zero locked, the all-ones placeholder
code hash, zero storage usage, version `V1`. -/
def accountBody : Json :=
  Json.obj
    [("amount", Json.str AMOUNT),
     ("locked", Json.str "0"),
     ("code_hash", Json.str "11111111111111111111111111111111"),
     ("storage_usage", Json.num 0),
     ("version", Json.str "V1")]

/-- The nested `access_key` object of every appended `AccessKey` record
(source lines 73-76): nonce 0 and full access. -/
def accessKeyBody : Json :=
  Json.obj
    [("nonce", Json.num 0),
     ("permission", Json.str "FullAccess")]

/-- The `Account` record appended for a spec (source lines 55-66). -/
def mkAccountRecord (sp : AccountSpec) : Json :=
  Json.obj
    [("Account", Json.obj
      [("account_id", Json.str sp.id),
       ("account", accountBody)])]

/-- The `AccessKey` record appended for a spec (source lines 69-78). -/
def mkAccessKeyRecord (sp : AccountSpec) : Json :=
  Json.obj
    [("AccessKey", Json.obj
      [("account_id", Json.str sp.id),
       ("public_key", Json.str sp.pk),
       ("access_key", accessKeyBody)])]

/-- The adding loop (source lines 47-80): for each spec in order, skip it when
its id is in `existing_ids`, otherwise append its `Account` then `AccessKey`
record and accumulate `int(AMOUNT)` into `added_balance`. Returns the appended
records and the accumulated balance. -/
def addNewAccounts (ids : List Json) : List AccountSpec → List Json × Int
  | [] => ([], 0)
  | sp :: rest =>
    if idPresent ids sp.id then addNewAccounts ids rest
    else
      let (recs, bal) := addNewAccounts ids rest
      (mkAccountRecord sp :: mkAccessKeyRecord sp :: recs, AMOUNT_INT + bal)

/-- The treasury loop (source lines 83-89): find the first record with an
`'Account'` key whose `account_id` equals `'near'`, replace its
`account.amount` by `str(int(amount) - added_balance)`, and `break`; later
records are untouched, and a fruitless scan changes nothing. -/
def deductTreasury (bal : Int) : List Json → Except Err (List Json)
  | [] => Except.ok []
  | r :: rest =>
    if r.hasKey "Account" then do
      let accv ← getKey r "Account"
      let aid ← getKey accv "account_id"
      if idMatches "near" aid then do
        let accObj ← getKey accv "account"
        let amtJ ← getKey accObj "amount"
        let current ← jsonToInt amtJ
        let accObj' := Json.setKey accObj "amount" (Json.str (intToStr (current - bal)))
        let accv' := Json.setKey accv "account" accObj'
        Except.ok (Json.setKey r "Account" accv' :: rest)
      else do
        let rest' ← deductTreasury bal rest
        Except.ok (r :: rest')
    else do
      let rest' ← deductTreasury bal rest
      Except.ok (r :: rest')

/-- The pure document transform of `update_genesis` (source lines 37-89),
parametrised by the configured spec list (the script applies it to
`NEW_ACCOUNTS`): read `records`, collect existing ids, append the missing
accounts, deduct the added balance from the treasury, and store the mutated
list back under `records` (Python mutates the aliased list in place, which
leaves every other top-level field untouched). -/
def update_doc (specs : List AccountSpec) (data : Json) : Except Err Json := do
  let records ← getRecords data
  let existing_ids ← collectExistingIds records
  let (newRecs, added_balance) := addNewAccounts existing_ids specs
  let records2 ← deductTreasury added_balance (records ++ newRecs)
  Except.ok (Json.setKey data "records" (Json.arr records2))

/-- Content of one file on disk: either not valid JSON (so `json.load`
raises) or a parsed document. -/
inductive FileContent where
  | malformed : FileContent
  | json (j : Json) : FileContent

/-- Observable outcome of one `update_genesis(path)` call: the path was
skipped (file missing), the file was overwritten with a new document, or an
unhandled exception escaped (no write happened). -/
inductive RunOutcome where
  | skipped : RunOutcome
  | wrote (j : Json) : RunOutcome
  | failed (e : Err) : RunOutcome

/-- One `update_genesis(path)` call (source lines 28-93) on the content found
at the path: a missing file is skipped, an unparseable file raises inside
`json.load`, and otherwise the document transform runs and its result is
written back (or its exception escapes before the write). -/
def update_genesis (specs : List AccountSpec) (content : Option FileContent) :
    RunOutcome :=
  match content with
  | none => RunOutcome.skipped
  | some FileContent.malformed => RunOutcome.failed Err.malformedJson
  | some (FileContent.json d) =>
    match update_doc specs d with
    | Except.ok d' => RunOutcome.wrote d'
    | Except.error e => RunOutcome.failed e

/-- The top-level loop (source lines 95-96): process the paths in order; a
successful run overwrites the file, a skip leaves the filesystem unchanged,
and an unhandled exception aborts the whole loop (there is no try/except), so
the remaining paths are not processed. Returns the final filesystem and the
escaped exception, if any. -/
def runAll (specs : List AccountSpec) (fs : String → Option FileContent) :
    List String → (String → Option FileContent) × Option Err
  | [] => (fs, none)
  | p :: ps =>
    match update_genesis specs (fs p) with
    | RunOutcome.skipped => runAll specs fs ps
    | RunOutcome.wrote j =>
        runAll specs (fun q => if q = p then some (FileContent.json j) else fs q) ps
    | RunOutcome.failed e => (fs, some e)

/-! ### Derived notions used in the statements -/

/-- The `account_id` reached by `r['Account']['account_id']`, when both lookups
succeed. -/
def accountIdOf (r : Json) : Option Json :=
  (r.lookup "Account").bind (fun a => a.lookup "account_id")

/-- The `account_id` values of the `Account`-variant records of a list, in
order. -/
def accountIds (l : List Json) : List Json :=
  l.filterMap accountIdOf

/-- Whether a record is an `Account` record for the treasury id `"near"`
(the test of source line 84). -/
def isNearRecord (r : Json) : Bool :=
  match accountIdOf r with
  | some aid => idMatches "near" aid
  | none => false

/-- The balance reached by `r['Account']['account']['amount']`, when the
lookups succeed. -/
def accountAmountOf (r : Json) : Option Json :=
  (r.lookup "Account").bind (fun a => (a.lookup "account").bind (fun ao => ao.lookup "amount"))

/-- A record with only its `Account.account.amount` field replaced by the
string `s`; identity when the path is absent. -/
def replaceAmount (r : Json) (s : String) : Json :=
  match r.lookup "Account" with
  | some accv =>
    match accv.lookup "account" with
    | some ao =>
      Json.setKey r "Account" (Json.setKey accv "account"
        (Json.setKey ao "amount" (Json.str s)))
    | none => r
  | none => r

/-- The configured specs whose id is not among the existing ids: exactly the
ones the adding loop appends. -/
def addedSpecs (ids : List Json) (specs : List AccountSpec) : List AccountSpec :=
  specs.filter (fun sp => !(idPresent ids sp.id))

/-- The records appended for a list of specs: for each spec its `Account`
record immediately followed by its `AccessKey` record. -/
def newRecordsFor (specs : List AccountSpec) : List Json :=
  specs.flatMap (fun sp => [mkAccountRecord sp, mkAccessKeyRecord sp])

/-- A record on which the first scan cannot raise: if it has an `Account` key
then `r['Account']['account_id']` succeeds. -/
def recordIdOk (r : Json) : Prop :=
  r.hasKey "Account" = true → (accountIdOf r).isSome = true

/-! ### Concrete documents used as test fixtures -/

/-- A minimal well-formed document: a `records` key holding an empty array. -/
def docRecordsEmpty : Json := Json.obj [("records", Json.arr [])]

/-- The document the script writes back for `docRecordsEmpty`: the six new
records appended, nothing else (no treasury record exists). -/
def docRecordsEmptyOut : Json :=
  Json.obj [("records", Json.arr (newRecordsFor NEW_ACCOUNTS))]

/-- A treasury record holding 10^27 yocto (100 times the per-account
balance). -/
def nearRecordRich : Json :=
  Json.obj [("Account", Json.obj
    [("account_id", Json.str "near"),
     ("account", Json.obj [("amount", Json.str "1000000000000000000000000000")])])]

/-- A well-formed document whose only record is the rich treasury account. -/
def docNearRich : Json := Json.obj [("records", Json.arr [nearRecordRich])]

/-- A treasury record holding only 5 yocto, far less than the balance the
script deducts. -/
def nearRecordPoor : Json :=
  Json.obj [("Account", Json.obj
    [("account_id", Json.str "near"),
     ("account", Json.obj [("amount", Json.str "5")])])]

/-- A well-formed document whose only record is the poor treasury account. -/
def docNearPoor : Json := Json.obj [("records", Json.arr [nearRecordPoor])]

/-- A record whose `Account` object lacks the `account_id` key: the first scan
raises `KeyError` on it. -/
def docMissingAccountId : Json :=
  Json.obj [("records", Json.arr [Json.obj [("Account", Json.obj [])]])]

/-- A treasury record whose `account` object lacks the `amount` key: the
treasury loop raises `KeyError` on it. -/
def docMissingAmount : Json :=
  Json.obj [("records", Json.arr
    [Json.obj [("Account", Json.obj
      [("account_id", Json.str "near"), ("account", Json.obj [])])]])]

/-- A filesystem with one unparseable file and one valid file. -/
def fsTwoFiles : String → Option FileContent := fun p =>
  if p = "node0.json" then some FileContent.malformed
  else if p = "node1.json" then some (FileContent.json docRecordsEmpty)
  else none

/-! ### Decimal strings: `str`/`int` roundtrip -/

theorem digitVal_char (d : Nat) (h : d < 10) :
    digitVal (Char.ofNat (d + 48)) = some d := by
  interval_cases d <;> decide

theorem char_digit_not_sign (d : Nat) (h : d < 10) :
    Char.ofNat (d + 48) ≠ '-' ∧ Char.ofNat (d + 48) ≠ '+' := by
  interval_cases d <;> decide

theorem natChars_mem (n : Nat) :
    ∀ c ∈ natChars n, ∃ d, d < 10 ∧ c = Char.ofNat (d + 48) := by
  intro c hc
  by_cases h : n = 0
  · subst h
    simp [natChars] at hc
    exact ⟨0, by norm_num, by rw [hc]⟩
  · simp only [natChars, if_neg h, List.mem_reverse, List.mem_map] at hc
    obtain ⟨d, hd, rfl⟩ := hc
    exact ⟨d, Nat.digits_lt_base (by norm_num) hd, rfl⟩

theorem natChars_ne_nil (n : Nat) : natChars n ≠ [] := by
  by_cases h : n = 0
  · subst h; simp [natChars]
  · simp only [natChars, if_neg h, ne_eq, List.reverse_eq_nil_iff, List.map_eq_nil_iff]
    exact Nat.digits_ne_nil_iff_ne_zero.mpr h

theorem readDigits_map (ds : List Nat) (h : ∀ d ∈ ds, d < 10) (acc : Nat) :
    readDigits (ds.map (fun d => Char.ofNat (d + 48))) acc
      = some (ds.foldl (fun a d => a * 10 + d) acc) := by
  induction ds generalizing acc with
  | nil => rfl
  | cons d ds ih =>
    have hd : d < 10 := h d (by simp)
    simp only [List.map_cons, readDigits, digitVal_char d hd, List.foldl_cons]
    exact ih (fun x hx => h x (by simp [hx])) (acc * 10 + d)

theorem foldl_reverse_ofDigits (L : List Nat) (acc : Nat) :
    L.reverse.foldl (fun a d => a * 10 + d) acc
      = acc * 10 ^ L.length + Nat.ofDigits 10 L := by
  induction L generalizing acc with
  | nil => simp
  | cons d L ih =>
    simp only [List.reverse_cons, List.foldl_append, List.foldl_cons, List.foldl_nil, ih,
      List.length_cons, Nat.ofDigits_cons, pow_succ]
    ring

theorem readNat_natChars (n : Nat) : readNat (natChars n) = some n := by
  by_cases h : n = 0
  · subst h; decide
  · obtain ⟨c, cs, hc⟩ := List.exists_cons_of_ne_nil (natChars_ne_nil n)
    have hrw : natChars n = ((Nat.digits 10 n).reverse.map (fun d => Char.ofNat (d + 48))) := by
      simp [natChars, if_neg h, List.map_reverse]
    have hlt : ∀ d ∈ (Nat.digits 10 n).reverse, d < 10 := by
      intro d hd
      exact Nat.digits_lt_base (by norm_num) (List.mem_reverse.mp hd)
    have := readDigits_map ((Nat.digits 10 n).reverse) hlt 0
    rw [foldl_reverse_ofDigits, Nat.ofDigits_digits] at this
    simp only [readNat, hc]
    rw [← hc, hrw, this, zero_mul, zero_add]

theorem strToInt_cons (c : Char) (cs : List Char) :
    strToInt ⟨c :: cs⟩
      = if c = '-' then Option.map (fun n : Nat => -(n : Int)) (readNat cs)
        else if c = '+' then Option.map (fun n : Nat => (n : Int)) (readNat cs)
        else Option.map (fun n : Nat => (n : Int)) (readNat (c :: cs)) := rfl

theorem strToInt_intToStr (i : Int) : strToInt (intToStr i) = some i := by
  rcases lt_or_le i 0 with h | h
  · have hs : intToStr i = ⟨'-' :: natChars i.natAbs⟩ := by simp [intToStr, h]
    rw [hs, strToInt_cons, if_pos rfl, readNat_natChars]
    simp only [Option.map_some']
    congr 1
    rw [Int.ofNat_natAbs_of_nonpos (le_of_lt h), neg_neg]
  · obtain ⟨c, cs, hc⟩ := List.exists_cons_of_ne_nil (natChars_ne_nil i.natAbs)
    obtain ⟨d, hd, hcd⟩ := natChars_mem i.natAbs c (by rw [hc]; exact List.mem_cons_self c cs)
    have hsign := char_digit_not_sign d hd
    have hs : intToStr i = ⟨c :: cs⟩ := by simp [intToStr, not_lt.mpr h, hc]
    rw [hs, strToInt_cons, if_neg (hcd ▸ hsign.1), if_neg (hcd ▸ hsign.2), ← hc,
      readNat_natChars]
    simp only [Option.map_some']
    congr 1
    exact Int.natAbs_of_nonneg h

theorem jsonToInt_roundtrip (m : Int) :
    jsonToInt (Json.str (intToStr m)) = Except.ok m := by
  simp [jsonToInt, strToInt_intToStr]

/-! ### Field-list and lookup lemmas -/

theorem lookupField_setField_self (l : List (String × Json)) (k : String) (v : Json) :
    lookupField k (setField l k v) = some v := by
  induction l with
  | nil => simp [setField, lookupField]
  | cons p rest ih =>
    by_cases h : p.1 = k
    · simp [setField, h, lookupField]
    · simp [setField, h, lookupField, ih]

theorem lookupField_setField_ne (l : List (String × Json)) (k k' : String) (v : Json)
    (h : k' ≠ k) : lookupField k' (setField l k v) = lookupField k' l := by
  induction l with
  | nil => simp [setField, lookupField, Ne.symm h]
  | cons p rest ih =>
    by_cases hp : p.1 = k
    · subst hp
      simp [setField, lookupField, Ne.symm h]
    · simp [setField, hp, lookupField, ih]

theorem setField_setField (l : List (String × Json)) (k : String) (v v' : Json) :
    setField (setField l k v) k v' = setField l k v' := by
  induction l with
  | nil => simp [setField]
  | cons p rest ih =>
    by_cases h : p.1 = k
    · simp [setField, h]
    · simp [setField, h, ih]

theorem lookup_some_obj {j : Json} {k : String} {v : Json} (h : j.lookup k = some v) :
    ∃ fs, j = Json.obj fs := by
  cases j <;> simp [Json.lookup] at h ⊢

theorem getKey_of_lookup {j : Json} {k : String} {v : Json} (h : j.lookup k = some v) :
    getKey j k = Except.ok v := by
  obtain ⟨fs, rfl⟩ := lookup_some_obj h
  simp only [Json.lookup] at h
  simp [getKey, h]

theorem hasKey_of_lookup {j : Json} {k : String} {v : Json} (h : j.lookup k = some v) :
    j.hasKey k = true := by
  simp [Json.hasKey, h]

theorem lookup_eq_none_of_hasKey_false {j : Json} {k : String}
    (h : j.hasKey k = false) : j.lookup k = none := by
  cases hl : j.lookup k with
  | none => rfl
  | some v => rw [Json.hasKey, hl] at h; simp at h

theorem hasKey_exists_lookup {j : Json} {k : String} (h : j.hasKey k = true) :
    ∃ v, j.lookup k = some v := by
  simp only [Json.hasKey, Option.isSome_iff_exists] at h
  exact h

theorem lookup_setKey_self {fs : List (String × Json)} (k : String) (v : Json) :
    (Json.setKey (Json.obj fs) k v).lookup k = some v := by
  simp [Json.setKey, Json.lookup, lookupField_setField_self]

theorem lookup_setKey_ne {fs : List (String × Json)} (k k' : String) (v : Json)
    (h : k' ≠ k) :
    (Json.setKey (Json.obj fs) k v).lookup k' = (Json.obj fs).lookup k' := by
  simp [Json.setKey, Json.lookup, lookupField_setField_ne _ _ _ _ h]

theorem setKey_setKey {fs : List (String × Json)} (k : String) (v v' : Json) :
    Json.setKey (Json.setKey (Json.obj fs) k v) k v' = Json.setKey (Json.obj fs) k v' := by
  simp [Json.setKey, setField_setField]

theorem idMatches_true {s : String} {j : Json} (h : idMatches s j = true) :
    j = Json.str s := by
  cases j <;> simp [idMatches] at h ⊢
  exact h.symm

/-! ### Lemmas on the first scan (`collectExistingIds`) -/

@[simp] theorem exceptBind_ok {α β : Type} (a : α) (f : α → Except Err β) :
    (Except.ok a : Except Err α) >>= f = f a := rfl

@[simp] theorem exceptBind_error {α β : Type} (e : Err) (f : α → Except Err β) :
    (Except.error e : Except Err α) >>= f = Except.error e := rfl

theorem hashable_ok_inv {j j' : Json} (h : hashableId j = Except.ok j') : j' = j := by
  cases j <;> simp [hashableId] at h <;> exact h.symm

theorem collect_cons_skip {r : Json} {rest : List Json}
    (hk : r.hasKey "Account" = false) :
    collectExistingIds (r :: rest) = collectExistingIds rest := by
  simp [collectExistingIds, hk]

theorem collect_cons_account_ok {r : Json} {rest : List Json} {accv aid : Json}
    {ids : List Json}
    (hacc : r.lookup "Account" = some accv)
    (haid : accv.lookup "account_id" = some aid)
    (hh : hashableId aid = Except.ok aid)
    (hrest : collectExistingIds rest = Except.ok ids) :
    collectExistingIds (r :: rest) = Except.ok (aid :: ids) := by
  simp [collectExistingIds, hasKey_of_lookup hacc, getKey_of_lookup hacc,
    getKey_of_lookup haid, hh, hrest]

theorem getKey_ok_lookup {j : Json} {k : String} {v : Json}
    (h : getKey j k = Except.ok v) : j.lookup k = some v := by
  cases j with
  | obj fs =>
    simp only [getKey] at h
    cases hl : lookupField k fs with
    | none => rw [hl] at h; simp at h
    | some w => rw [hl] at h; simp only [Except.ok.injEq] at h; simp [Json.lookup, hl, h]
  | null => simp [getKey] at h
  | bool b => simp [getKey] at h
  | num n => simp [getKey] at h
  | str s => simp [getKey] at h
  | arr l => simp [getKey] at h

theorem collect_cons_account_inv {r : Json} {rest : List Json} {ids : List Json}
    (h : collectExistingIds (r :: rest) = Except.ok ids)
    (hk : r.hasKey "Account" = true) :
    ∃ accv aid ids', r.lookup "Account" = some accv ∧
      accv.lookup "account_id" = some aid ∧ hashableId aid = Except.ok aid ∧
      collectExistingIds rest = Except.ok ids' ∧ ids = aid :: ids' := by
  simp only [collectExistingIds, hk, if_true] at h
  cases hga : getKey r "Account" with
  | error e => rw [hga] at h; simp at h
  | ok accv =>
    rw [hga] at h
    simp only [exceptBind_ok] at h
    cases hg : getKey accv "account_id" with
    | error e => rw [hg] at h; simp at h
    | ok aid =>
      rw [hg] at h
      simp only [exceptBind_ok] at h
      cases hh : hashableId aid with
      | error e => rw [hh] at h; simp at h
      | ok aidh =>
        rw [hh] at h
        simp only [exceptBind_ok] at h
        cases hrest : collectExistingIds rest with
        | error e => rw [hrest] at h; simp at h
        | ok ids' =>
          rw [hrest] at h
          simp only [exceptBind_ok, Except.ok.injEq] at h
          have heq : aidh = aid := hashable_ok_inv hh
          refine ⟨accv, aid, ids', getKey_ok_lookup hga, getKey_ok_lookup hg, ?_,
            rfl, ?_⟩
          · rw [heq] at hh; exact hh
          · rw [← h, heq]

theorem accountIdOf_eq {r accv aid : Json}
    (hacc : r.lookup "Account" = some accv)
    (haid : accv.lookup "account_id" = some aid) :
    accountIdOf r = some aid := by
  simp [accountIdOf, hacc, haid]

theorem accountIdOf_none {r : Json} (hk : r.hasKey "Account" = false) :
    accountIdOf r = none := by
  simp [accountIdOf, lookup_eq_none_of_hasKey_false hk]

theorem collect_accountIds {l : List Json} {ids : List Json}
    (h : collectExistingIds l = Except.ok ids) : ids = accountIds l := by
  induction l generalizing ids with
  | nil =>
    simp only [collectExistingIds, Except.ok.injEq] at h
    simp [← h, accountIds]
  | cons r rest ih =>
    cases hk : r.hasKey "Account" with
    | false =>
      rw [collect_cons_skip hk] at h
      rw [ih h]
      simp [accountIds, List.filterMap_cons, accountIdOf_none hk]
    | true =>
      obtain ⟨accv, aid, ids', hacc, haid, hh, hrest, hids⟩ :=
        collect_cons_account_inv h hk
      subst hids
      rw [ih hrest]
      simp [accountIds, List.filterMap_cons, accountIdOf_eq hacc haid]

theorem collect_ok_recordIdOk {l : List Json} {ids : List Json}
    (h : collectExistingIds l = Except.ok ids) : ∀ r ∈ l, recordIdOk r := by
  induction l generalizing ids with
  | nil => intro r hr; simp at hr
  | cons r rest ih =>
    intro x hx
    rcases List.mem_cons.mp hx with rfl | hx'
    · cases hk : x.hasKey "Account" with
      | false => intro hcontra; rw [hk] at hcontra; exact absurd hcontra (by simp)
      | true =>
        obtain ⟨accv, aid, _, hacc, haid, _, _, _⟩ := collect_cons_account_inv h hk
        intro _
        simp [accountIdOf_eq hacc haid]
    · cases hk : r.hasKey "Account" with
      | false =>
        rw [collect_cons_skip hk] at h
        exact ih h x hx'
      | true =>
        obtain ⟨_, _, _, _, _, _, hrest, _⟩ := collect_cons_account_inv h hk
        exact ih hrest x hx'

theorem collect_append_ok {a b : List Json} {ia ib : List Json}
    (ha : collectExistingIds a = Except.ok ia)
    (hb : collectExistingIds b = Except.ok ib) :
    collectExistingIds (a ++ b) = Except.ok (ia ++ ib) := by
  induction a generalizing ia with
  | nil =>
    simp only [collectExistingIds, Except.ok.injEq] at ha
    simpa [← ha] using hb
  | cons r rest ih =>
    cases hk : r.hasKey "Account" with
    | false =>
      rw [collect_cons_skip hk] at ha
      rw [List.cons_append, collect_cons_skip hk]
      exact ih ha
    | true =>
      obtain ⟨accv, aid, ia', hacc, haid, hh, hrest, hids⟩ :=
        collect_cons_account_inv ha hk
      subst hids
      rw [List.cons_append]
      rw [collect_cons_account_ok hacc haid hh (ih hrest)]
      simp

theorem collect_append_inv {a b : List Json} {ids : List Json}
    (h : collectExistingIds (a ++ b) = Except.ok ids) :
    ∃ ia ib, collectExistingIds a = Except.ok ia ∧
      collectExistingIds b = Except.ok ib ∧ ids = ia ++ ib := by
  induction a generalizing ids with
  | nil => exact ⟨[], ids, rfl, h, rfl⟩
  | cons r rest ih =>
    cases hk : r.hasKey "Account" with
    | false =>
      rw [List.cons_append, collect_cons_skip hk] at h
      obtain ⟨ia, ib, hA, hB, hids⟩ := ih h
      exact ⟨ia, ib, by rw [collect_cons_skip hk]; exact hA, hB, hids⟩
    | true =>
      rw [List.cons_append] at h
      obtain ⟨accv, aid, ids', hacc, haid, hh, hrest, hids⟩ :=
        collect_cons_account_inv h hk
      obtain ⟨ia, ib, hA, hB, hids'⟩ := ih hrest
      refine ⟨aid :: ia, ib, collect_cons_account_ok hacc haid hh hA, hB, ?_⟩
      rw [hids, hids', List.cons_append]

theorem collect_newRecordsFor (L : List AccountSpec) :
    collectExistingIds (newRecordsFor L)
      = Except.ok (L.map (fun sp => Json.str sp.id)) := by
  induction L with
  | nil => rfl
  | cons sp L ih =>
    have hstep : newRecordsFor (sp :: L)
        = mkAccountRecord sp :: mkAccessKeyRecord sp :: newRecordsFor L := rfl
    have h1 : (mkAccessKeyRecord sp).hasKey "Account" = false := rfl
    have h2 : (mkAccountRecord sp).lookup "Account"
        = some (Json.obj [("account_id", Json.str sp.id), ("account", accountBody)]) := rfl
    have h3 : (Json.obj [("account_id", Json.str sp.id),
        ("account", accountBody)]).lookup "account_id" = some (Json.str sp.id) := rfl
    have h4 : hashableId (Json.str sp.id) = Except.ok (Json.str sp.id) := rfl
    rw [hstep, collect_cons_account_ok h2 h3 h4 ((collect_cons_skip h1).trans ih)]
    simp

/-! ### Lemmas on the adding loop (`addNewAccounts`) -/

theorem addNew_eq (ids : List Json) (specs : List AccountSpec) :
    addNewAccounts ids specs
      = (newRecordsFor (addedSpecs ids specs),
         AMOUNT_INT * ((addedSpecs ids specs).length : Int)) := by
  induction specs with
  | nil => rfl
  | cons sp rest ih =>
    cases hp : idPresent ids sp.id with
    | true =>
      simp [addNewAccounts, hp, addedSpecs, List.filter_cons, ih]
    | false =>
      simp only [addNewAccounts, hp, Bool.false_eq_true, if_false, ih, addedSpecs,
        List.filter_cons, Bool.not_false, if_true, newRecordsFor, List.flatMap_cons,
        List.length_cons, Prod.mk.injEq, List.cons_append, List.nil_append]
      constructor
      · trivial
      · push_cast
        ring

theorem addNew_all_present {ids : List Json} {specs : List AccountSpec}
    (h : ∀ sp ∈ specs, idPresent ids sp.id = true) :
    addNewAccounts ids specs = ([], 0) := by
  induction specs with
  | nil => rfl
  | cons sp rest ih =>
    simp [addNewAccounts, h sp (by simp), ih (fun x hx => h x (by simp [hx]))]

theorem idPresent_append (a b : List Json) (s : String) :
    idPresent (a ++ b) s = (idPresent a s || idPresent b s) := by
  simp [idPresent, List.any_append]

theorem idPresent_of_mem_str {ids : List Json} {s : String}
    (h : Json.str s ∈ ids) : idPresent ids s = true := by
  simp only [idPresent, List.any_eq_true]
  exact ⟨Json.str s, h, by simp [idMatches]⟩

theorem not_mem_str_of_not_idPresent {ids : List Json} {s : String}
    (h : idPresent ids s = false) : Json.str s ∉ ids := by
  intro hmem
  rw [idPresent_of_mem_str hmem] at h
  exact absurd h (by simp)

/-! ### Lemmas on the treasury loop (`deductTreasury`) -/

theorem isNearRecord_of_accountIdOf {r aid : Json} (h : accountIdOf r = some aid) :
    isNearRecord r = idMatches "near" aid := by
  simp [isNearRecord, h]

theorem isNearRecord_of_none {r : Json} (h : accountIdOf r = none) :
    isNearRecord r = false := by
  simp [isNearRecord, h]

theorem deduct_cons_nokey_ok {b : Int} {r : Json} {rest t : List Json}
    (hk : r.hasKey "Account" = false)
    (h : deductTreasury b rest = Except.ok t) :
    deductTreasury b (r :: rest) = Except.ok (r :: t) := by
  simp [deductTreasury, hk, h]

theorem deduct_cons_notnear_ok {b : Int} {r accv aid : Json} {rest t : List Json}
    (hacc : r.lookup "Account" = some accv)
    (haid : accv.lookup "account_id" = some aid)
    (hn : idMatches "near" aid = false)
    (h : deductTreasury b rest = Except.ok t) :
    deductTreasury b (r :: rest) = Except.ok (r :: t) := by
  simp [deductTreasury, hasKey_of_lookup hacc, getKey_of_lookup hacc,
    getKey_of_lookup haid, hn, h]

theorem deduct_cons_hit {b : Int} {r accv ao amtJ : Json} {rest : List Json} {n : Int}
    (hacc : r.lookup "Account" = some accv)
    (haid : accv.lookup "account_id" = some (Json.str "near"))
    (hao : accv.lookup "account" = some ao)
    (hamt : ao.lookup "amount" = some amtJ)
    (hint : jsonToInt amtJ = Except.ok n) :
    deductTreasury b (r :: rest)
      = Except.ok (Json.setKey r "Account" (Json.setKey accv "account"
          (Json.setKey ao "amount" (Json.str (intToStr (n - b))))) :: rest) := by
  simp [deductTreasury, hasKey_of_lookup hacc, getKey_of_lookup hacc,
    getKey_of_lookup haid, idMatches, getKey_of_lookup hao, getKey_of_lookup hamt,
    hint]

theorem deduct_cons_inv {b : Int} {r : Json} {rest l' : List Json}
    (h : deductTreasury b (r :: rest) = Except.ok l') :
    (r.hasKey "Account" = false ∧ ∃ t, deductTreasury b rest = Except.ok t ∧ l' = r :: t) ∨
    (∃ accv aid, r.lookup "Account" = some accv ∧
      accv.lookup "account_id" = some aid ∧ idMatches "near" aid = false ∧
      ∃ t, deductTreasury b rest = Except.ok t ∧ l' = r :: t) ∨
    (∃ accv ao amtJ n, r.lookup "Account" = some accv ∧
      accv.lookup "account_id" = some (Json.str "near") ∧
      accv.lookup "account" = some ao ∧ ao.lookup "amount" = some amtJ ∧
      jsonToInt amtJ = Except.ok n ∧
      l' = Json.setKey r "Account" (Json.setKey accv "account"
        (Json.setKey ao "amount" (Json.str (intToStr (n - b))))) :: rest) := by
  cases hk : r.hasKey "Account" with
  | false =>
    simp only [deductTreasury, hk, Bool.false_eq_true, if_false] at h
    cases ht : deductTreasury b rest with
    | error e => rw [ht] at h; simp at h
    | ok t =>
      rw [ht] at h
      simp only [exceptBind_ok, Except.ok.injEq] at h
      exact Or.inl ⟨rfl, t, rfl, h.symm⟩
  | true =>
    simp only [deductTreasury, hk, if_true] at h
    cases hga : getKey r "Account" with
    | error e => rw [hga] at h; simp at h
    | ok accv =>
      rw [hga] at h
      simp only [exceptBind_ok] at h
      cases hg : getKey accv "account_id" with
      | error e => rw [hg] at h; simp at h
      | ok aid =>
        rw [hg] at h
        simp only [exceptBind_ok] at h
        cases hm : idMatches "near" aid with
        | false =>
          rw [hm] at h
          simp only [Bool.false_eq_true, if_false] at h
          cases ht : deductTreasury b rest with
          | error e => rw [ht] at h; simp at h
          | ok t =>
            rw [ht] at h
            simp only [exceptBind_ok, Except.ok.injEq] at h
            exact Or.inr (Or.inl ⟨accv, aid, getKey_ok_lookup hga,
              getKey_ok_lookup hg, hm, t, rfl, h.symm⟩)
        | true =>
          rw [hm] at h
          simp only [if_true] at h
          obtain rfl := idMatches_true hm
          cases hgo : getKey accv "account" with
          | error e => rw [hgo] at h; simp at h
          | ok ao =>
            rw [hgo] at h
            simp only [exceptBind_ok] at h
            cases hgm : getKey ao "amount" with
            | error e => rw [hgm] at h; simp at h
            | ok amtJ =>
              rw [hgm] at h
              simp only [exceptBind_ok] at h
              cases hint : jsonToInt amtJ with
              | error e => rw [hint] at h; simp at h
              | ok n =>
                rw [hint] at h
                simp only [exceptBind_ok, Except.ok.injEq] at h
                exact Or.inr (Or.inr ⟨accv, ao, amtJ, n, getKey_ok_lookup hga,
                  getKey_ok_lookup hg, getKey_ok_lookup hgo, getKey_ok_lookup hgm,
                  hint, h.symm⟩)

theorem deduct_skip_all {b : Int} {l : List Json}
    (h : ∀ r ∈ l, recordIdOk r ∧ isNearRecord r = false) :
    deductTreasury b l = Except.ok l := by
  induction l with
  | nil => rfl
  | cons r rest ih =>
    have hr := h r (by simp)
    have hrec := ih (fun x hx => h x (by simp [hx]))
    cases hk : r.hasKey "Account" with
    | false => exact deduct_cons_nokey_ok hk hrec
    | true =>
      have hsome := hr.1 hk
      cases haidof : accountIdOf r with
      | none => rw [haidof] at hsome; simp at hsome
      | some aid =>
        simp only [accountIdOf, Option.bind_eq_some] at haidof
        obtain ⟨accv, hacc, haid⟩ := haidof
        have hnear : idMatches "near" aid = false := by
          rw [← isNearRecord_of_accountIdOf (accountIdOf_eq hacc haid)]
          exact hr.2
        exact deduct_cons_notnear_ok hacc haid hnear hrec

theorem deduct_hit_prefix {b : Int} {r accv ao amtJ : Json} {n : Int}
    (l₁ l₂ : List Json)
    (h₁ : ∀ x ∈ l₁, recordIdOk x ∧ isNearRecord x = false)
    (hacc : r.lookup "Account" = some accv)
    (haid : accv.lookup "account_id" = some (Json.str "near"))
    (hao : accv.lookup "account" = some ao)
    (hamt : ao.lookup "amount" = some amtJ)
    (hint : jsonToInt amtJ = Except.ok n) :
    deductTreasury b (l₁ ++ r :: l₂)
      = Except.ok (l₁ ++ Json.setKey r "Account" (Json.setKey accv "account"
          (Json.setKey ao "amount" (Json.str (intToStr (n - b))))) :: l₂) := by
  induction l₁ with
  | nil => simpa using deduct_cons_hit hacc haid hao hamt hint
  | cons x l₁ ih =>
    have hx := h₁ x (by simp)
    have hrec := ih (fun y hy => h₁ y (by simp [hy]))
    rw [List.cons_append, List.cons_append]
    cases hk : x.hasKey "Account" with
    | false => exact deduct_cons_nokey_ok hk hrec
    | true =>
      have hsome := hx.1 hk
      cases haidof : accountIdOf x with
      | none => rw [haidof] at hsome; simp at hsome
      | some aid =>
        simp only [accountIdOf, Option.bind_eq_some] at haidof
        obtain ⟨xv, hxv, hxaid⟩ := haidof
        have hnear : idMatches "near" aid = false := by
          rw [← isNearRecord_of_accountIdOf (accountIdOf_eq hxv hxaid)]
          exact hx.2
        exact deduct_cons_notnear_ok hxv hxaid hnear hrec

theorem deduct_inv {b : Int} {l l' : List Json}
    (h : deductTreasury b l = Except.ok l') :
    ((∀ x ∈ l, recordIdOk x ∧ isNearRecord x = false) ∧ l' = l) ∨
    (∃ l₁ r l₂ accv ao amtJ n, l = l₁ ++ r :: l₂ ∧
      (∀ x ∈ l₁, recordIdOk x ∧ isNearRecord x = false) ∧
      r.lookup "Account" = some accv ∧
      accv.lookup "account_id" = some (Json.str "near") ∧
      accv.lookup "account" = some ao ∧ ao.lookup "amount" = some amtJ ∧
      jsonToInt amtJ = Except.ok n ∧
      l' = l₁ ++ Json.setKey r "Account" (Json.setKey accv "account"
        (Json.setKey ao "amount" (Json.str (intToStr (n - b))))) :: l₂) := by
  induction l generalizing l' with
  | nil =>
    simp only [deductTreasury, Except.ok.injEq] at h
    exact Or.inl ⟨by simp, h.symm⟩
  | cons r rest ih =>
    rcases deduct_cons_inv h with ⟨hk, t, ht, rfl⟩ | ⟨accv, aid, hacc, haid, hm, t, ht, rfl⟩
      | ⟨accv, ao, amtJ, n, hacc, haid, hao, hamt, hint, rfl⟩
    · have hrprops : recordIdOk r ∧ isNearRecord r = false := by
        constructor
        · intro hcontra; rw [hk] at hcontra; exact absurd hcontra (by simp)
        · exact isNearRecord_of_none (accountIdOf_none hk)
      rcases ih ht with ⟨hall, rfl⟩ | ⟨l₁, x, l₂, xv, xo, xj, m, rfl, hpre, hx1, hx2, hx3, hx4, hx5, rfl⟩
      · exact Or.inl ⟨by
          intro y hy
          rcases List.mem_cons.mp hy with rfl | hy'
          · exact hrprops
          · exact hall y hy', rfl⟩
      · refine Or.inr ⟨r :: l₁, x, l₂, xv, xo, xj, m, rfl, ?_, hx1, hx2, hx3, hx4, hx5, rfl⟩
        intro y hy
        rcases List.mem_cons.mp hy with rfl | hy'
        · exact hrprops
        · exact hpre y hy'
    · have hrprops : recordIdOk r ∧ isNearRecord r = false := by
        constructor
        · intro _; simp [accountIdOf_eq hacc haid]
        · rw [isNearRecord_of_accountIdOf (accountIdOf_eq hacc haid)]; exact hm
      rcases ih ht with ⟨hall, rfl⟩ | ⟨l₁, x, l₂, xv, xo, xj, m, rfl, hpre, hx1, hx2, hx3, hx4, hx5, rfl⟩
      · exact Or.inl ⟨by
          intro y hy
          rcases List.mem_cons.mp hy with rfl | hy'
          · exact hrprops
          · exact hall y hy', rfl⟩
      · refine Or.inr ⟨r :: l₁, x, l₂, xv, xo, xj, m, rfl, ?_, hx1, hx2, hx3, hx4, hx5, rfl⟩
        intro y hy
        rcases List.mem_cons.mp hy with rfl | hy'
        · exact hrprops
        · exact hpre y hy'
    · exact Or.inr ⟨[], r, rest, accv, ao, amtJ, n, rfl, by simp, hacc, haid, hao,
        hamt, hint, rfl⟩

/-! ### Lemmas on `getRecords` and `update_doc` -/

theorem getRecords_ok_obj {data : Json} {rs : List Json}
    (h : getRecords data = Except.ok rs) :
    ∃ fs, data = Json.obj fs ∧ data.lookup "records" = some (Json.arr rs) := by
  cases data with
  | obj fs =>
    refine ⟨fs, rfl, ?_⟩
    simp only [getRecords] at h
    cases hl : lookupField "records" fs with
    | none => rw [hl] at h; simp at h
    | some v =>
      rw [hl] at h
      cases v with
      | arr l => simp only [Except.ok.injEq] at h; simp [Json.lookup, hl, h]
      | null => simp at h
      | bool b => simp at h
      | num n => simp at h
      | str s => simp at h
      | obj fs' => simp at h
  | null => simp [getRecords] at h
  | bool b => simp [getRecords] at h
  | num n => simp [getRecords] at h
  | str s => simp [getRecords] at h
  | arr l => simp [getRecords] at h

theorem getRecords_setKey (fs : List (String × Json)) (rs' : List Json) :
    getRecords (Json.setKey (Json.obj fs) "records" (Json.arr rs'))
      = Except.ok rs' := by
  simp [Json.setKey, getRecords, lookupField_setField_self]

theorem update_doc_inv {specs : List AccountSpec} {data d' : Json}
    (h : update_doc specs data = Except.ok d') :
    ∃ rs ids rs₂, getRecords data = Except.ok rs ∧
      collectExistingIds rs = Except.ok ids ∧
      deductTreasury (AMOUNT_INT * ((addedSpecs ids specs).length : Int))
        (rs ++ newRecordsFor (addedSpecs ids specs)) = Except.ok rs₂ ∧
      d' = Json.setKey data "records" (Json.arr rs₂) := by
  simp only [update_doc] at h
  cases hrec : getRecords data with
  | error e => rw [hrec] at h; simp at h
  | ok rs =>
    rw [hrec] at h
    simp only [exceptBind_ok] at h
    cases hids : collectExistingIds rs with
    | error e => rw [hids] at h; simp at h
    | ok ids =>
      rw [hids] at h
      simp only [exceptBind_ok, addNew_eq] at h
      cases hd : deductTreasury (AMOUNT_INT * ((addedSpecs ids specs).length : Int))
          (rs ++ newRecordsFor (addedSpecs ids specs)) with
      | error e => rw [hd] at h; simp at h
      | ok rs₂ =>
        rw [hd] at h
        simp only [exceptBind_ok, Except.ok.injEq] at h
        exact ⟨rs, ids, rs₂, rfl, hids, hd, h.symm⟩

theorem update_doc_build {specs : List AccountSpec} {data : Json}
    {rs ids rs₂ : List Json}
    (hrec : getRecords data = Except.ok rs)
    (hids : collectExistingIds rs = Except.ok ids)
    (hd : deductTreasury (AMOUNT_INT * ((addedSpecs ids specs).length : Int))
      (rs ++ newRecordsFor (addedSpecs ids specs)) = Except.ok rs₂) :
    update_doc specs data
      = Except.ok (Json.setKey data "records" (Json.arr rs₂)) := by
  simp only [update_doc, hrec, exceptBind_ok, hids, addNew_eq, hd]

/-! ### Properties of the appended records -/

theorem mem_newRecordsFor {x : Json} {L : List AccountSpec} :
    x ∈ newRecordsFor L
      ↔ ∃ sp ∈ L, x = mkAccountRecord sp ∨ x = mkAccessKeyRecord sp := by
  simp [newRecordsFor, List.mem_flatMap]

theorem accountIdOf_mkAccountRecord (sp : AccountSpec) :
    accountIdOf (mkAccountRecord sp) = some (Json.str sp.id) := rfl

theorem accountIdOf_mkAccessKeyRecord (sp : AccountSpec) :
    accountIdOf (mkAccessKeyRecord sp) = none := rfl

theorem newRecords_props {x : Json} {L : List AccountSpec}
    (hx : x ∈ newRecordsFor L) (hL : ∀ sp ∈ L, sp.id ≠ "near") :
    recordIdOk x ∧ isNearRecord x = false := by
  obtain ⟨sp, hsp, hcase⟩ := mem_newRecordsFor.mp hx
  rcases hcase with rfl | rfl
  · constructor
    · intro _; simp [accountIdOf_mkAccountRecord]
    · rw [isNearRecord_of_accountIdOf (accountIdOf_mkAccountRecord sp)]
      simp only [idMatches, decide_eq_false_iff_not]
      exact fun hh => hL sp hsp hh.symm
  · constructor
    · intro hcontra
      rw [show (mkAccessKeyRecord sp).hasKey "Account" = false from rfl] at hcontra
      exact absurd hcontra (by simp)
    · exact isNearRecord_of_none (accountIdOf_mkAccessKeyRecord sp)

theorem accountIds_newRecordsFor (L : List AccountSpec) :
    accountIds (newRecordsFor L) = L.map (fun sp => Json.str sp.id) := by
  induction L with
  | nil => rfl
  | cons sp L ih =>
    have hstep : newRecordsFor (sp :: L)
        = mkAccountRecord sp :: mkAccessKeyRecord sp :: newRecordsFor L := rfl
    rw [hstep]
    simp only [accountIds, List.filterMap_cons, accountIdOf_mkAccountRecord,
      accountIdOf_mkAccessKeyRecord]
    rw [show accountIds (newRecordsFor L) = List.filterMap accountIdOf (newRecordsFor L) from rfl] at ih
    simp [ih]

theorem accountIds_append (a b : List Json) :
    accountIds (a ++ b) = accountIds a ++ accountIds b := by
  simp [accountIds, List.filterMap_append]

/-! ### The treasury hit preserves account ids -/

theorem replaced_lookups {r accv ao : Json} {v : Json}
    (hacc : r.lookup "Account" = some accv)
    (haid : ∃ aid, accv.lookup "account_id" = some aid)
    (hao : accv.lookup "account" = some ao) :
    (Json.setKey r "Account" (Json.setKey accv "account"
        (Json.setKey ao "amount" v))).lookup "Account"
      = some (Json.setKey accv "account" (Json.setKey ao "amount" v)) ∧
    (Json.setKey accv "account" (Json.setKey ao "amount" v)).lookup "account_id"
      = accv.lookup "account_id" ∧
    (Json.setKey accv "account" (Json.setKey ao "amount" v)).lookup "account"
      = some (Json.setKey ao "amount" v) := by
  obtain ⟨fr, rfl⟩ := lookup_some_obj hacc
  obtain ⟨aid, haid⟩ := haid
  obtain ⟨fa, rfl⟩ := lookup_some_obj haid
  refine ⟨lookup_setKey_self _ _, ?_, lookup_setKey_self _ _⟩
  exact lookup_setKey_ne _ _ _ (by decide)

theorem accountIdOf_replaced {r accv ao : Json} {v : Json}
    (hacc : r.lookup "Account" = some accv)
    (haid : ∃ aid, accv.lookup "account_id" = some aid)
    (hao : accv.lookup "account" = some ao) :
    accountIdOf (Json.setKey r "Account" (Json.setKey accv "account"
        (Json.setKey ao "amount" v)))
      = accountIdOf r := by
  obtain ⟨h1, h2, _⟩ := replaced_lookups (v := v) hacc haid hao
  simp [accountIdOf, h1, h2, hacc]

theorem accountIds_deduct {b : Int} {l l' : List Json}
    (h : deductTreasury b l = Except.ok l') : accountIds l' = accountIds l := by
  rcases deduct_inv h with ⟨_, rfl⟩ |
    ⟨l₁, r, l₂, accv, ao, amtJ, n, rfl, _, hacc, haid, hao, _, _, rfl⟩
  · rfl
  · simp only [accountIds, List.filterMap_append, List.filterMap_cons]
    rw [show List.filterMap accountIdOf = accountIds from rfl]
    rw [accountIdOf_replaced hacc ⟨_, haid⟩ hao]

theorem collect_deduct {b : Int} {l l' ids : List Json}
    (hd : deductTreasury b l = Except.ok l')
    (hc : collectExistingIds l = Except.ok ids) :
    collectExistingIds l' = Except.ok ids := by
  rcases deduct_inv hd with ⟨_, rfl⟩ |
    ⟨l₁, r, l₂, accv, ao, amtJ, n, rfl, _, hacc, haid, hao, _, _, rfl⟩
  · exact hc
  · obtain ⟨ia, ib, hA, hB, rfl⟩ := collect_append_inv hc
    obtain ⟨accv', aid, ids', hacc', haid', hh, hrest, rfl⟩ :=
      collect_cons_account_inv hB (hasKey_of_lookup hacc)
    rw [hacc] at hacc'
    obtain rfl : accv = accv' := by injection hacc'
    rw [haid] at haid'
    obtain rfl : Json.str "near" = aid := by injection haid'
    obtain ⟨h1, h2, _⟩ := replaced_lookups
      (v := Json.str (intToStr (n - b))) hacc ⟨_, haid⟩ hao
    exact collect_append_ok hA (collect_cons_account_ok h1 (h2.trans haid) hh hrest)

theorem intToStr_neg (m : Int) (h : m < 0) :
    ∃ cs, intToStr m = ⟨'-' :: cs⟩ :=
  ⟨natChars m.natAbs, by simp [intToStr, h]⟩

theorem jsonToInt_str {s : String} {n : Int} (h : strToInt s = some n) :
    jsonToInt (Json.str s) = Except.ok n := by
  simp [jsonToInt, h]

/-! ### Splitting an appended list at a marked element -/

theorem split_before_length {α : Type} {a b l₁ l₂ : List α} {r : α}
    (heq : a ++ b = l₁ ++ r :: l₂) (hlt : l₁.length < a.length) :
    ∃ t, a = l₁ ++ r :: t ∧ l₂ = t ++ b := by
  induction l₁ generalizing a with
  | nil =>
    cases a with
    | nil => simp at hlt
    | cons x a' =>
      simp only [List.cons_append, List.nil_append] at heq
      obtain ⟨rfl, rfl⟩ : x = r ∧ a' ++ b = l₂ := by
        constructor <;> [exact (List.cons.injEq _ _ _ _ ▸ heq).1;
          exact (List.cons.injEq _ _ _ _ ▸ heq).2]
      exact ⟨a', rfl, rfl⟩
  | cons y l₁' ih =>
    cases a with
    | nil => simp at hlt
    | cons x a' =>
      simp only [List.cons_append, List.cons.injEq] at heq
      obtain ⟨rfl, heq'⟩ := heq
      simp only [List.length_cons, Nat.add_lt_add_iff_right] at hlt
      obtain ⟨t, ht1, ht2⟩ := ih heq' hlt
      exact ⟨t, by rw [List.cons_append, ht1], ht2⟩

theorem mem_right_of_split {α : Type} {a b l₁ l₂ : List α} {r : α}
    (heq : a ++ b = l₁ ++ r :: l₂) (hge : a.length ≤ l₁.length) : r ∈ b := by
  induction a generalizing l₁ with
  | nil =>
    simp only [List.nil_append] at heq
    rw [heq]
    exact List.mem_append.mpr (Or.inr (List.mem_cons_self _ _))
  | cons x a' ih =>
    cases l₁ with
    | nil => simp at hge
    | cons y l₁' =>
      simp only [List.cons_append, List.cons.injEq] at heq
      simp only [List.length_cons, Nat.add_le_add_iff_right] at hge
      exact ih heq.2 hge

/-! ### Shape of a successful run when no configured spec names the treasury -/

theorem update_shape {specs : List AccountSpec} {data d' : Json} {rs ids : List Json}
    (hrec : getRecords data = Except.ok rs)
    (hids : collectExistingIds rs = Except.ok ids)
    (hup : update_doc specs data = Except.ok d')
    (hsp : ∀ sp ∈ specs, sp.id ≠ "near") :
    ∃ rs₀,
      d' = Json.setKey data "records"
        (Json.arr (rs₀ ++ newRecordsFor (addedSpecs ids specs))) ∧
      getRecords d' = Except.ok (rs₀ ++ newRecordsFor (addedSpecs ids specs)) ∧
      rs₀.length = rs.length ∧
      (rs₀ = rs ∨ ∃ l₁ r l₂ s', rs = l₁ ++ r :: l₂ ∧
        (∀ x ∈ l₁, isNearRecord x = false) ∧ isNearRecord r = true ∧
        rs₀ = l₁ ++ replaceAmount r s' :: l₂) := by
  obtain ⟨rs', ids', rs₂, hrec', hids', hd, hdeq⟩ := update_doc_inv hup
  rw [hrec] at hrec'
  have h1 : rs = rs' := by injection hrec'
  subst h1
  rw [hids] at hids'
  have h2 : ids = ids' := by injection hids'
  subst h2
  obtain ⟨fs, hobj, _⟩ := getRecords_ok_obj hrec
  have hLnear : ∀ sp ∈ addedSpecs ids specs, sp.id ≠ "near" :=
    fun sp hsp' => hsp sp (List.mem_of_mem_filter hsp')
  rcases deduct_inv hd with ⟨_, rfl⟩ |
    ⟨l₁, r, l₂, accv, ao, amtJ, n, hsplit, hpre, hacc, haid, hao, hamt, hint, hrs₂⟩
  · refine ⟨rs, hdeq, ?_, rfl, Or.inl rfl⟩
    rw [hdeq, hobj]
    exact getRecords_setKey fs _
  · have hrnear : isNearRecord r = true := by
      rw [isNearRecord_of_accountIdOf (accountIdOf_eq hacc haid)]
      rfl
    have hlen : l₁.length < rs.length := by
      by_contra hge
      push_neg at hge
      have hmem := mem_right_of_split hsplit hge
      have := (newRecords_props hmem hLnear).2
      rw [hrnear] at this
      exact absurd this (by simp)
    obtain ⟨t, hrs_eq, hl₂⟩ := split_before_length hsplit hlen
    have hr' : Json.setKey r "Account" (Json.setKey accv "account"
        (Json.setKey ao "amount" (Json.str (intToStr
          (n - AMOUNT_INT * ((addedSpecs ids specs).length : Int))))))
        = replaceAmount r (intToStr
            (n - AMOUNT_INT * ((addedSpecs ids specs).length : Int))) := by
      simp [replaceAmount, hacc, hao]
    refine ⟨l₁ ++ replaceAmount r (intToStr
        (n - AMOUNT_INT * ((addedSpecs ids specs).length : Int))) :: t, ?_, ?_, ?_, ?_⟩
    · rw [hdeq, hrs₂, hl₂, hr']
      simp
    · rw [hdeq, hobj, hrs₂, hl₂, hr']
      rw [show (Json.obj fs).setKey "records"
          (Json.arr (l₁ ++ replaceAmount r (intToStr
            (n - AMOUNT_INT * ((addedSpecs ids specs).length : Int))) :: (t ++
              newRecordsFor (addedSpecs ids specs))))
          = (Json.obj fs).setKey "records"
          (Json.arr ((l₁ ++ replaceAmount r (intToStr
            (n - AMOUNT_INT * ((addedSpecs ids specs).length : Int))) :: t) ++
              newRecordsFor (addedSpecs ids specs))) by simp]
      exact getRecords_setKey fs _
    · rw [hrs_eq]
      simp
    · exact Or.inr ⟨l₁, r, t, _, hrs_eq, fun x hx => (hpre x hx).2, hrnear, rfl⟩

/-! ### Shape of a successful run that hits the treasury record -/

theorem update_near_shape {specs : List AccountSpec} {data : Json}
    {rs rs₁ rs₂ ids : List Json} {r accv ao : Json} {s : String} {n : Int}
    (hrec : getRecords data = Except.ok rs)
    (hids : collectExistingIds rs = Except.ok ids)
    (hsplit : rs = rs₁ ++ r :: rs₂)
    (hpre : ∀ x ∈ rs₁, isNearRecord x = false)
    (hacc : r.lookup "Account" = some accv)
    (haid : accv.lookup "account_id" = some (Json.str "near"))
    (hao : accv.lookup "account" = some ao)
    (hamt : ao.lookup "amount" = some (Json.str s))
    (hn : strToInt s = some n) :
    update_doc specs data = Except.ok (Json.setKey data "records" (Json.arr
      (rs₁ ++ replaceAmount r (intToStr
          (n - AMOUNT_INT * ((addedSpecs ids specs).length : Int)))
        :: (rs₂ ++ newRecordsFor (addedSpecs ids specs))))) ∧
    accountIdOf (replaceAmount r (intToStr
        (n - AMOUNT_INT * ((addedSpecs ids specs).length : Int))))
      = some (Json.str "near") ∧
    accountAmountOf (replaceAmount r (intToStr
        (n - AMOUNT_INT * ((addedSpecs ids specs).length : Int))))
      = some (Json.str (intToStr
          (n - AMOUNT_INT * ((addedSpecs ids specs).length : Int)))) := by
  have hpre' : ∀ x ∈ rs₁, recordIdOk x ∧ isNearRecord x = false := by
    intro x hx
    refine ⟨collect_ok_recordIdOk hids x ?_, hpre x hx⟩
    rw [hsplit]
    exact List.mem_append_left _ hx
  have hint : jsonToInt (Json.str s) = Except.ok n := jsonToInt_str hn
  have hd := deduct_hit_prefix
    (b := AMOUNT_INT * ((addedSpecs ids specs).length : Int))
    rs₁ (rs₂ ++ newRecordsFor (addedSpecs ids specs))
    hpre' hacc haid hao hamt hint
  have hd' : deductTreasury (AMOUNT_INT * ((addedSpecs ids specs).length : Int))
      (rs ++ newRecordsFor (addedSpecs ids specs))
      = Except.ok (rs₁ ++ Json.setKey r "Account" (Json.setKey accv "account"
          (Json.setKey ao "amount" (Json.str (intToStr
            (n - AMOUNT_INT * ((addedSpecs ids specs).length : Int))))))
        :: (rs₂ ++ newRecordsFor (addedSpecs ids specs))) := by
    rw [hsplit]
    simpa using hd
  have hr' : Json.setKey r "Account" (Json.setKey accv "account"
      (Json.setKey ao "amount" (Json.str (intToStr
        (n - AMOUNT_INT * ((addedSpecs ids specs).length : Int))))))
      = replaceAmount r (intToStr
          (n - AMOUNT_INT * ((addedSpecs ids specs).length : Int))) := by
    simp [replaceAmount, hacc, hao]
  obtain ⟨h1, h2, h3⟩ := replaced_lookups
    (v := Json.str (intToStr (n - AMOUNT_INT * ((addedSpecs ids specs).length : Int))))
    hacc ⟨_, haid⟩ hao
  obtain ⟨fo, rfl⟩ := lookup_some_obj hamt
  refine ⟨?_, ?_, ?_⟩
  · rw [← hr']
    exact update_doc_build hrec hids hd'
  · rw [← hr']
    simp [accountIdOf, h1, h2, haid]
  · rw [← hr']
    simp [accountAmountOf, h1, h3, lookup_setKey_self]

/-! ### Claim theorems -/

/-- C1: on a well-formed document whose records contain a first `"near"`
`Account` record with decimal amount `s` parsing to `n`, a run of the
document transform succeeds and rewrites exactly that record's amount to the
decimal string of `n - k * AMOUNT_INT`, computed in exact `Int` arithmetic,
where `k` is the number of configured specs whose id was not already present
(`addedSpecs`); specs skipped as present contribute nothing. -/
theorem C1_supply_conservation (specs : List AccountSpec) (data : Json)
    (rs rs₁ rs₂ ids : List Json) (r accv ao : Json) (s : String) (n : Int)
    (hrec : getRecords data = Except.ok rs)
    (hids : collectExistingIds rs = Except.ok ids)
    (hsplit : rs = rs₁ ++ r :: rs₂)
    (hpre : ∀ x ∈ rs₁, isNearRecord x = false)
    (hacc : r.lookup "Account" = some accv)
    (haid : accv.lookup "account_id" = some (Json.str "near"))
    (hao : accv.lookup "account" = some ao)
    (hamt : ao.lookup "amount" = some (Json.str s))
    (hn : strToInt s = some n) :
    ∃ d' r', update_doc specs data = Except.ok d' ∧
      r' = replaceAmount r (intToStr
        (n - AMOUNT_INT * ((addedSpecs ids specs).length : Int))) ∧
      getRecords d'
        = Except.ok (rs₁ ++ r' :: (rs₂ ++ newRecordsFor (addedSpecs ids specs))) ∧
      accountIdOf r' = some (Json.str "near") ∧
      accountAmountOf r' = some (Json.str (intToStr
        (n - AMOUNT_INT * ((addedSpecs ids specs).length : Int)))) := by
  obtain ⟨h1, h2, h3⟩ := update_near_shape hrec hids hsplit hpre hacc haid hao hamt hn
  obtain ⟨fs, hobj, _⟩ := getRecords_ok_obj hrec
  subst hobj
  exact ⟨_, _, h1, rfl, getRecords_setKey fs _, h2, h3⟩

/-- C1 witness: the scenario of §8 of the spec, a document holding one
`"near"` account with 10^27 yocto and the three hardcoded specs absent. -/
theorem C1_supply_conservation_witness :
    ∃ d' r', update_doc NEW_ACCOUNTS docNearRich = Except.ok d' ∧
      r' = replaceAmount nearRecordRich (intToStr
        ((1000000000000000000000000000 : Int) - AMOUNT_INT
          * ((addedSpecs [Json.str "near"] NEW_ACCOUNTS).length : Int))) ∧
      getRecords d' = Except.ok ([] ++ r' :: ([] ++
        newRecordsFor (addedSpecs [Json.str "near"] NEW_ACCOUNTS))) ∧
      accountIdOf r' = some (Json.str "near") ∧
      accountAmountOf r' = some (Json.str (intToStr
        ((1000000000000000000000000000 : Int) - AMOUNT_INT
          * ((addedSpecs [Json.str "near"] NEW_ACCOUNTS).length : Int)))) :=
  C1_supply_conservation NEW_ACCOUNTS docNearRich [nearRecordRich] [] []
    [Json.str "near"] nearRecordRich
    (Json.obj [("account_id", Json.str "near"),
      ("account", Json.obj [("amount", Json.str "1000000000000000000000000000")])])
    (Json.obj [("amount", Json.str "1000000000000000000000000000")])
    "1000000000000000000000000000" 1000000000000000000000000000
    rfl rfl rfl (by simp) rfl rfl rfl rfl rfl

/-- C9: when the parsed treasury amount `n` is below the total deduction, no
floor is enforced: the transform still succeeds, the stored amount is the
decimal string of the negative integer `n - k * AMOUNT_INT` computed exactly,
and that string begins with a minus sign. -/
theorem C9_negative_balance (specs : List AccountSpec) (data : Json)
    (rs rs₁ rs₂ ids : List Json) (r accv ao : Json) (s : String) (n : Int)
    (hrec : getRecords data = Except.ok rs)
    (hids : collectExistingIds rs = Except.ok ids)
    (hsplit : rs = rs₁ ++ r :: rs₂)
    (hpre : ∀ x ∈ rs₁, isNearRecord x = false)
    (hacc : r.lookup "Account" = some accv)
    (haid : accv.lookup "account_id" = some (Json.str "near"))
    (hao : accv.lookup "account" = some ao)
    (hamt : ao.lookup "amount" = some (Json.str s))
    (hn : strToInt s = some n)
    (hlow : n < AMOUNT_INT * ((addedSpecs ids specs).length : Int)) :
    ∃ d' r', update_doc specs data = Except.ok d' ∧
      r' = replaceAmount r (intToStr
        (n - AMOUNT_INT * ((addedSpecs ids specs).length : Int))) ∧
      accountAmountOf r' = some (Json.str (intToStr
        (n - AMOUNT_INT * ((addedSpecs ids specs).length : Int)))) ∧
      n - AMOUNT_INT * ((addedSpecs ids specs).length : Int) < 0 ∧
      ∃ cs, intToStr (n - AMOUNT_INT * ((addedSpecs ids specs).length : Int))
        = ⟨'-' :: cs⟩ := by
  obtain ⟨h1, _, h3⟩ := update_near_shape hrec hids hsplit hpre hacc haid hao hamt hn
  have hneg : n - AMOUNT_INT * ((addedSpecs ids specs).length : Int) < 0 :=
    sub_neg.mpr hlow
  exact ⟨_, _, h1, rfl, h3, hneg, intToStr_neg _ hneg⟩

/-- C9 witness: a treasury holding only 5 yocto while the three hardcoded
specs are added. -/
theorem C9_negative_balance_witness :
    ∃ d' r', update_doc NEW_ACCOUNTS docNearPoor = Except.ok d' ∧
      r' = replaceAmount nearRecordPoor (intToStr
        ((5 : Int) - AMOUNT_INT
          * ((addedSpecs [Json.str "near"] NEW_ACCOUNTS).length : Int))) ∧
      accountAmountOf r' = some (Json.str (intToStr
        ((5 : Int) - AMOUNT_INT
          * ((addedSpecs [Json.str "near"] NEW_ACCOUNTS).length : Int)))) ∧
      (5 : Int) - AMOUNT_INT * ((addedSpecs [Json.str "near"] NEW_ACCOUNTS).length : Int) < 0 ∧
      ∃ cs, intToStr ((5 : Int) - AMOUNT_INT
        * ((addedSpecs [Json.str "near"] NEW_ACCOUNTS).length : Int))
        = ⟨'-' :: cs⟩ :=
  C9_negative_balance NEW_ACCOUNTS docNearPoor [nearRecordPoor] [] []
    [Json.str "near"] nearRecordPoor
    (Json.obj [("account_id", Json.str "near"),
      ("account", Json.obj [("amount", Json.str "5")])])
    (Json.obj [("amount", Json.str "5")])
    "5" 5 rfl rfl rfl (by simp) rfl rfl rfl rfl rfl (by decide)

/-- C2: applying the document transform a second time to a successfully
produced output returns that output unchanged: every configured id is then
already present, nothing is appended, and the treasury amount is rewritten to
the very same string. -/
theorem C2_idempotent (specs : List AccountSpec) (data d' : Json)
    (h : update_doc specs data = Except.ok d') :
    update_doc specs d' = Except.ok d' := by
  obtain ⟨rs, ids, rs₂, hrec, hids, hd, hdeq⟩ := update_doc_inv h
  obtain ⟨fs, hobj, _⟩ := getRecords_ok_obj hrec
  subst hobj
  subst hdeq
  have hrec' : getRecords (Json.setKey (Json.obj fs) "records" (Json.arr rs₂))
      = Except.ok rs₂ := getRecords_setKey fs _
  have hcoll2 : collectExistingIds rs₂
      = Except.ok (ids ++ (addedSpecs ids specs).map (fun sp => Json.str sp.id)) :=
    collect_deduct hd (collect_append_ok hids (collect_newRecordsFor _))
  have hpres : ∀ sp ∈ specs,
      idPresent (ids ++ (addedSpecs ids specs).map (fun sp => Json.str sp.id))
        sp.id = true := by
    intro sp hsp
    rw [idPresent_append]
    cases hp : idPresent ids sp.id with
    | true => simp
    | false =>
      have hmem : sp ∈ addedSpecs ids specs :=
        List.mem_filter.mpr ⟨hsp, by simp [hp]⟩
      have hms : Json.str sp.id
          ∈ (addedSpecs ids specs).map (fun sp => Json.str sp.id) :=
        List.mem_map.mpr ⟨sp, hmem, rfl⟩
      simp [idPresent_of_mem_str hms]
  have hadded : addedSpecs
      (ids ++ (addedSpecs ids specs).map (fun sp => Json.str sp.id)) specs = [] := by
    simp only [addedSpecs, List.filter_eq_nil_iff, Bool.not_eq_true,
      Bool.not_eq_true']
    intro sp hsp
    rw [show List.filter (fun sp => !idPresent ids sp.id) specs
      = addedSpecs ids specs from rfl, hpres sp hsp]
    simp
  have hded0 : deductTreasury 0 rs₂ = Except.ok rs₂ := by
    rcases deduct_inv hd with ⟨hall, rfl⟩ |
      ⟨l₁, r, l₂, accv, ao, amtJ, n, hsplit, hpre, hacc, haid, hao, hamt, hint, hrs₂⟩
    · exact deduct_skip_all hall
    · subst hrs₂
      obtain ⟨h1, h2, h3⟩ := replaced_lookups
        (v := Json.str (intToStr
          (n - AMOUNT_INT * ((addedSpecs ids specs).length : Int))))
        hacc ⟨_, haid⟩ hao
      obtain ⟨fo, rfl⟩ := lookup_some_obj hamt
      obtain ⟨fa, rfl⟩ := lookup_some_obj hao
      obtain ⟨fr, rfl⟩ := lookup_some_obj hacc
      have hd0 := deduct_hit_prefix (b := 0) l₁ l₂ hpre h1 (h2.trans haid) h3
        (lookup_setKey_self _ _) (jsonToInt_roundtrip _)
      rw [hd0]
      congr 1
      rw [List.append_cancel_left_eq]
      congr 1
      rw [sub_zero, setKey_setKey, setKey_setKey, setKey_setKey]
  have hd2 : deductTreasury (AMOUNT_INT * ((addedSpecs
      (ids ++ (addedSpecs ids specs).map (fun sp => Json.str sp.id)) specs).length : Int))
      (rs₂ ++ newRecordsFor (addedSpecs
        (ids ++ (addedSpecs ids specs).map (fun sp => Json.str sp.id)) specs))
      = Except.ok rs₂ := by
    rw [hadded]
    simpa [newRecordsFor] using hded0
  have hb := update_doc_build hrec' hcoll2 hd2
  rw [setKey_setKey] at hb
  exact hb

/-- C2 witness: patching the six-record output of a run on the empty-records
document leaves it unchanged. -/
theorem C2_idempotent_witness :
    update_doc NEW_ACCOUNTS docRecordsEmptyOut = Except.ok docRecordsEmptyOut :=
  C2_idempotent NEW_ACCOUNTS docRecordsEmpty docRecordsEmptyOut rfl

/-- C3: the claim fails on the code (code bug): a malformed first file makes
`update_genesis` raise an unhandled error which aborts the whole loop, leaving
the filesystem untouched, so the second, valid file of the run is not
processed even though processing it would rewrite it. -/
theorem C3_malformed_aborts_run :
    runAll NEW_ACCOUNTS fsTwoFiles ["node0.json", "node1.json"]
      = (fsTwoFiles, some Err.malformedJson) ∧
    update_genesis NEW_ACCOUNTS (fsTwoFiles "node1.json")
      = RunOutcome.wrote docRecordsEmptyOut ∧
    docRecordsEmptyOut ≠ docRecordsEmpty := by
  refine ⟨rfl, rfl, ?_⟩
  simp [docRecordsEmptyOut, docRecordsEmpty, newRecordsFor, NEW_ACCOUNTS]

/-- C4: if the input document's Account ids are pairwise distinct (and the
configured spec ids are, as the hardcoded `NEW_ACCOUNTS` are), the output of a
successful run still has pairwise distinct Account ids: the patcher never
creates a duplicate. -/
theorem C4_unique_ids (specs : List AccountSpec) (data d' : Json)
    (rs rs' : List Json)
    (hup : update_doc specs data = Except.ok d')
    (hrec : getRecords data = Except.ok rs)
    (hnd : (accountIds rs).Nodup)
    (hnds : (specs.map AccountSpec.id).Nodup)
    (hrs' : getRecords d' = Except.ok rs') :
    (accountIds rs').Nodup := by
  obtain ⟨rs0, ids, rs₂, hrec', hids, hd, hdeq⟩ := update_doc_inv hup
  rw [hrec] at hrec'
  have h1 : rs = rs0 := by injection hrec'
  subst h1
  obtain ⟨fs, hobj, _⟩ := getRecords_ok_obj hrec
  subst hobj
  rw [hdeq, getRecords_setKey fs _] at hrs'
  have h2 : rs₂ = rs' := by injection hrs'
  subst h2
  rw [accountIds_deduct hd, accountIds_append, accountIds_newRecordsFor,
    ← collect_accountIds hids, List.nodup_append]
  have hnd' : ids.Nodup := by rw [collect_accountIds hids]; exact hnd
  have hmapid : ((addedSpecs ids specs).map AccountSpec.id).Nodup :=
    hnds.sublist ((List.filter_sublist _).map _)
  have hmapstr : (((addedSpecs ids specs).map AccountSpec.id).map Json.str).Nodup :=
    hmapid.map (fun a b hab => by injection hab)
  rw [List.map_map] at hmapstr
  refine ⟨hnd', hmapstr, ?_⟩
  intro x hx hx'
  obtain ⟨sp, hsp, rfl⟩ := List.mem_map.mp hx'
  have hfil := (List.mem_filter.mp hsp).2
  simp only [Bool.not_eq_true'] at hfil
  exact absurd (idPresent_of_mem_str hx) (by rw [hfil]; simp)

/-- C4 witness: instantiated at the empty-records document and the hardcoded
spec list. -/
theorem C4_unique_ids_witness :
    (accountIds (newRecordsFor NEW_ACCOUNTS)).Nodup :=
  C4_unique_ids NEW_ACCOUNTS docRecordsEmpty docRecordsEmptyOut []
    (newRecordsFor NEW_ACCOUNTS) rfl rfl (by simp [accountIds]) (by decide) rfl

/-- C5: in a successful run whose configured specs do not name the treasury
(as the hardcoded ones do not), the output records consist of a block of the
same length as the input followed by, for each added spec in configuration
order, its `Account` record immediately followed by its `AccessKey` record
(`mkAccessKeyRecord`: the spec's id and public key, nonce 0, permission
FullAccess). -/
theorem C5_pairing (specs : List AccountSpec) (data d' : Json) (rs ids : List Json)
    (hrec : getRecords data = Except.ok rs)
    (hids : collectExistingIds rs = Except.ok ids)
    (hup : update_doc specs data = Except.ok d')
    (hsp : ∀ sp ∈ specs, sp.id ≠ "near") :
    ∃ rs₀, rs₀.length = rs.length ∧
      getRecords d' = Except.ok (rs₀ ++ (addedSpecs ids specs).flatMap
        (fun sp => [mkAccountRecord sp, mkAccessKeyRecord sp])) := by
  obtain ⟨rs₀, _, hget, hlen, _⟩ := update_shape hrec hids hup hsp
  exact ⟨rs₀, hlen, hget⟩

/-- C5 witness: instantiated at the empty-records document. -/
theorem C5_pairing_witness :
    ∃ rs₀, rs₀.length = ([] : List Json).length ∧
      getRecords docRecordsEmptyOut
        = Except.ok (rs₀ ++ (addedSpecs [] NEW_ACCOUNTS).flatMap
          (fun sp => [mkAccountRecord sp, mkAccessKeyRecord sp])) :=
  C5_pairing NEW_ACCOUNTS docRecordsEmpty docRecordsEmptyOut [] []
    rfl rfl rfl (by decide)

/-- C6: a path whose file does not exist is skipped: the call reports
`skipped`, no error escapes, nothing is written, and the loop continues with
the remaining paths. -/
theorem C6_skip_missing (specs : List AccountSpec)
    (fs : String → Option FileContent) (p : String) (ps : List String)
    (h : fs p = none) :
    update_genesis specs (fs p) = RunOutcome.skipped ∧
    runAll specs fs [p] = (fs, none) ∧
    runAll specs fs (p :: ps) = runAll specs fs ps := by
  refine ⟨by rw [h]; rfl, ?_, ?_⟩ <;> simp [runAll, h, update_genesis]

/-- C6 witness: an empty filesystem. -/
theorem C6_skip_missing_witness :
    update_genesis NEW_ACCOUNTS
      ((fun _ => none : String → Option FileContent) "p0") = RunOutcome.skipped ∧
    runAll NEW_ACCOUNTS (fun _ => none) ["p0"] = ((fun _ => none), none) ∧
    runAll NEW_ACCOUNTS (fun _ => none) ["p0", "p1"]
      = runAll NEW_ACCOUNTS (fun _ => none) ["p1"] :=
  C6_skip_missing NEW_ACCOUNTS (fun _ => none) "p0" ["p1"] rfl

/-- C7: on a well-formed document with no `"near"` Account record anywhere
(and specs not naming it), the run succeeds with no treasury adjustment: the
output is the input with only the new records appended under `records`, every
other top-level field untouched. -/
theorem C7_no_treasury (specs : List AccountSpec) (data : Json)
    (rs ids : List Json)
    (hrec : getRecords data = Except.ok rs)
    (hids : collectExistingIds rs = Except.ok ids)
    (hnone : ∀ x ∈ rs, isNearRecord x = false)
    (hsp : ∀ sp ∈ specs, sp.id ≠ "near") :
    update_doc specs data = Except.ok (Json.setKey data "records"
      (Json.arr (rs ++ newRecordsFor (addedSpecs ids specs)))) ∧
    (∀ q, q ≠ "records" →
      (Json.setKey data "records"
        (Json.arr (rs ++ newRecordsFor (addedSpecs ids specs)))).lookup q
      = data.lookup q) := by
  have hall : ∀ x ∈ rs ++ newRecordsFor (addedSpecs ids specs),
      recordIdOk x ∧ isNearRecord x = false := by
    intro x hx
    rcases List.mem_append.mp hx with hx' | hx'
    · exact ⟨collect_ok_recordIdOk hids x hx', hnone x hx'⟩
    · exact newRecords_props hx'
        (fun sp hsp' => hsp sp (List.mem_of_mem_filter hsp'))
  have hd := deduct_skip_all
    (b := AMOUNT_INT * ((addedSpecs ids specs).length : Int)) hall
  refine ⟨update_doc_build hrec hids hd, ?_⟩
  obtain ⟨fs, hobj, _⟩ := getRecords_ok_obj hrec
  subst hobj
  intro q hq
  exact lookup_setKey_ne _ _ _ hq

/-- C7 witness: the empty-records document. -/
theorem C7_no_treasury_witness :
    update_doc NEW_ACCOUNTS docRecordsEmpty
      = Except.ok (Json.setKey docRecordsEmpty "records"
        (Json.arr ([] ++ newRecordsFor (addedSpecs [] NEW_ACCOUNTS)))) ∧
    (∀ q, q ≠ "records" →
      (Json.setKey docRecordsEmpty "records"
        (Json.arr ([] ++ newRecordsFor (addedSpecs [] NEW_ACCOUNTS)))).lookup q
      = docRecordsEmpty.lookup q) :=
  C7_no_treasury NEW_ACCOUNTS docRecordsEmpty [] [] rfl rfl (by simp) (by decide)

/-- C8: frame property of a successful run (specs not naming the treasury, as
the hardcoded ones do not): every top-level field other than `records` is
unchanged; the output records are a block of the input's length followed only
by appended records generated from the configured specs; and the input block
is the input itself except at most the first `"near"` Account record, which
differs only in its `amount` field. -/
theorem C8_frame (specs : List AccountSpec) (data d' : Json) (rs ids : List Json)
    (hrec : getRecords data = Except.ok rs)
    (hids : collectExistingIds rs = Except.ok ids)
    (hup : update_doc specs data = Except.ok d')
    (hsp : ∀ sp ∈ specs, sp.id ≠ "near") :
    (∀ q, q ≠ "records" → d'.lookup q = data.lookup q) ∧
    ∃ rs₀ app, getRecords d' = Except.ok (rs₀ ++ app) ∧
      rs₀.length = rs.length ∧
      (∀ x ∈ app, ∃ sp ∈ specs, x = mkAccountRecord sp ∨ x = mkAccessKeyRecord sp) ∧
      (rs₀ = rs ∨ ∃ l₁ r l₂ s', rs = l₁ ++ r :: l₂ ∧
        (∀ x ∈ l₁, isNearRecord x = false) ∧ isNearRecord r = true ∧
        rs₀ = l₁ ++ replaceAmount r s' :: l₂) := by
  obtain ⟨rs₀, hdeq, hget, hlen, hcase⟩ := update_shape hrec hids hup hsp
  obtain ⟨fs, hobj, _⟩ := getRecords_ok_obj hrec
  subst hobj
  subst hdeq
  refine ⟨fun q hq => lookup_setKey_ne _ _ _ hq,
    rs₀, newRecordsFor (addedSpecs ids specs), hget, hlen, ?_, hcase⟩
  intro x hx
  obtain ⟨sp, hsp', hcase'⟩ := mem_newRecordsFor.mp hx
  exact ⟨sp, List.mem_of_mem_filter hsp', hcase'⟩

/-- C8 witness: the empty-records document. -/
theorem C8_frame_witness :
    (∀ q, q ≠ "records" →
      docRecordsEmptyOut.lookup q = docRecordsEmpty.lookup q) ∧
    ∃ rs₀ app, getRecords docRecordsEmptyOut = Except.ok (rs₀ ++ app) ∧
      rs₀.length = ([] : List Json).length ∧
      (∀ x ∈ app, ∃ sp ∈ NEW_ACCOUNTS,
        x = mkAccountRecord sp ∨ x = mkAccessKeyRecord sp) ∧
      (rs₀ = [] ∨ ∃ l₁ r l₂ s', ([] : List Json) = l₁ ++ r :: l₂ ∧
        (∀ x ∈ l₁, isNearRecord x = false) ∧ isNearRecord r = true ∧
        rs₀ = l₁ ++ replaceAmount r s' :: l₂) :=
  C8_frame NEW_ACCOUNTS docRecordsEmpty docRecordsEmptyOut [] []
    rfl rfl rfl (by decide)

/-- C10: valid JSON with a `records` key can still crash the run with an
unhandled `KeyError`, outside the spec's MalformedInputError taxonomy: a
record whose `Account` object lacks `account_id`, and a `"near"` record whose
nested `account` object lacks `amount`. -/
theorem C10_keyerror_crash :
    update_genesis NEW_ACCOUNTS (some (FileContent.json docMissingAccountId))
      = RunOutcome.failed (Err.keyError "account_id") ∧
    update_genesis NEW_ACCOUNTS (some (FileContent.json docMissingAmount))
      = RunOutcome.failed (Err.keyError "amount") :=
  ⟨rfl, rfl⟩
